import Mathlib

/-!
Shallow embedding of the disk I/O subsystem of cratetorrent
(`src/cratetorrent/src/disk/io/torrent.rs`): the disk coordinator's
`write_block` / `read_block` paths, the piece write buffer, the read cache
and the blocking flush worker. Collaborators that live outside the analysed
sources (`Piece` in `piece.rs`, `StorageInfo` in `storage_info.rs`,
`BlockInfo` in `lib.rs`) are modelled from the specification, as marked on
each such definition.

Bytes are modelled as natural numbers, the SHA-1 digest as an abstract
function argument, maps as association lists, and the effects of a call
(channel sends, cache insertions, statistics updates, blocking-pool
dispatches and panics) as explicit fields of an outcome record.
-/

namespace Cratetorrent

/-- Bytes are modelled as natural numbers. -/
abbrev Byte := Nat

/-- Modelled from the spec: the fixed 16 KiB block transfer size (`BLOCK_LEN`
in `lib.rs`, not among the analysed sources; the spec fixes blocks at
16 KiB). -/
def blockLen : Nat := 16384

/-- Modelled from the spec: a block request identifying a piece and an
intra-piece byte offset (`BlockInfo` in `lib.rs`, not among the analysed
sources). -/
structure BlockInfo where
  pieceIndex : Nat
  offset : Nat
deriving Repr, DecidableEq

/-- Modelled from the spec: the requested intra-piece block index, the byte
offset divided by the block size (`BlockInfo::index_in_piece` in `lib.rs`,
not among the analysed sources). -/
def BlockInfo.indexInPiece (b : BlockInfo) : Nat := b.offset / blockLen

/-- Rust `Result`, kept as its own type so equality stays decidable. -/
inductive RustResult (ε α : Type) where
  | ok (a : α)
  | err (e : ε)
deriving Repr, DecidableEq

/-- Errors of the disk write path (`disk/error.rs`): an invalid piece index
or an underlying I/O failure, abstracted to a numeric code. -/
inductive WriteError where
  | invalidPieceIndex
  | io (code : Nat)
deriving Repr, DecidableEq

/-- Errors of the disk read path (`disk/error.rs`). -/
inductive ReadError where
  | invalidPieceIndex
  | invalidBlockOffset
  | io (code : Nat)
deriving Repr, DecidableEq

/-- The payload of a successful piece-completion notification
(`torrent::PieceCompletion`). -/
structure PieceCompletion where
  index : Nat
  isValid : Bool
deriving Repr, DecidableEq

/-- Messages the disk coordinator sends to the owning torrent actor. -/
inductive TorrentMsg where
  | pieceCompletion (r : RustResult WriteError PieceCompletion)
  | readError (blockInfo : BlockInfo) (error : ReadError)
deriving Repr, DecidableEq

/-! ## Association-list maps

`HashMap` (the write buffer) and `CHashMap` (the read cache) are modelled as
association lists with unique keys; only lookup, overwrite and removal are
needed. -/

/-- Lookup of the first entry with the given key. -/
def mapLookup {α : Type} (k : Nat) : List (Nat × α) → Option α
  | [] => none
  | (k2, v) :: rest => if k = k2 then some v else mapLookup k rest

/-- Overwrite the entry with the given key, appending when absent. -/
def mapSet {α : Type} (k : Nat) (v : α) : List (Nat × α) → List (Nat × α)
  | [] => [(k, v)]
  | (k2, w) :: rest =>
    if k = k2 then (k, v) :: rest else (k2, w) :: mapSet k v rest

/-- Remove the first entry with the given key. -/
def mapRemove {α : Type} (k : Nat) : List (Nat × α) → List (Nat × α)
  | [] => []
  | (k2, w) :: rest => if k = k2 then rest else (k2, w) :: mapRemove k rest

@[simp]
theorem mapLookup_nil {α : Type} (k : Nat) : mapLookup (α := α) k [] = none :=
  rfl

@[simp]
theorem mapLookup_cons {α : Type} (k k2 : Nat) (v : α) (rest : List (Nat × α)) :
    mapLookup k ((k2, v) :: rest) =
      if k = k2 then some v else mapLookup k rest :=
  rfl

theorem mapLookup_mapSet_self {α : Type} (k : Nat) (v : α) :
    ∀ m : List (Nat × α), mapLookup k (mapSet k v m) = some v := by
  intro m
  induction m with
  | nil => simp [mapSet]
  | cons hd tl ih =>
    obtain ⟨k2, w⟩ := hd
    by_cases h : k = k2 <;> simp [mapSet, h, ih]

theorem mapLookup_mapSet_ne {α : Type} (k j : Nat) (v : α) (hne : j ≠ k) :
    ∀ m : List (Nat × α), mapLookup j (mapSet k v m) = mapLookup j m := by
  intro m
  induction m with
  | nil => simp [mapSet, hne]
  | cons hd tl ih =>
    obtain ⟨k2, w⟩ := hd
    by_cases h : k = k2
    · subst h
      simp [mapSet, hne]
    · by_cases h2 : j = k2 <;> simp [mapSet, h, h2, ih]

theorem mapLookup_mapRemove_ne {α : Type} (k j : Nat) (hne : j ≠ k) :
    ∀ m : List (Nat × α), mapLookup j (mapRemove k m) = mapLookup j m := by
  intro m
  induction m with
  | nil => simp [mapRemove]
  | cons hd tl ih =>
    obtain ⟨k2, w⟩ := hd
    by_cases h : k = k2
    · subst h
      simp [mapRemove, hne]
    · by_cases h2 : j = k2 <;> simp [mapRemove, h, h2, ih]

theorem mapLookup_eq_none_of_not_mem {α : Type} (k : Nat) :
    ∀ m : List (Nat × α), k ∉ m.map Prod.fst → mapLookup k m = none := by
  intro m
  induction m with
  | nil => simp
  | cons hd tl ih =>
    obtain ⟨k2, w⟩ := hd
    intro hmem
    simp only [List.map_cons, List.mem_cons] at hmem
    push_neg at hmem
    simp [hmem.1, ih hmem.2]

theorem mapLookup_mapRemove_self {α : Type} (k : Nat) :
    ∀ m : List (Nat × α), (m.map Prod.fst).Nodup →
    mapLookup k (mapRemove k m) = none := by
  intro m
  induction m with
  | nil => simp [mapRemove]
  | cons hd tl ih =>
    obtain ⟨k2, w⟩ := hd
    intro hnd
    simp only [List.map_cons, List.nodup_cons] at hnd
    by_cases h : k = k2
    · subst h
      simpa [mapRemove] using mapLookup_eq_none_of_not_mem k tl hnd.1
    · simp [mapRemove, h, ih hnd.2]

theorem mapSet_cons_self {α : Type} (k : Nat) (v w : α)
    (tl : List (Nat × α)) : mapSet k v ((k, w) :: tl) = (k, v) :: tl := by
  simp [mapSet]

theorem mapSet_cons_ne {α : Type} (k k2 : Nat) (v w : α)
    (tl : List (Nat × α)) (h : k ≠ k2) :
    mapSet k v ((k2, w) :: tl) = (k2, w) :: mapSet k v tl := by
  simp [mapSet, h]

theorem mem_keys_mapSet {α : Type} (k x : Nat) (v : α) :
    ∀ m : List (Nat × α),
      (x ∈ (mapSet k v m).map Prod.fst ↔ x = k ∨ x ∈ m.map Prod.fst) := by
  intro m
  induction m with
  | nil => simp [mapSet]
  | cons hd tl ih =>
    obtain ⟨k2, w⟩ := hd
    by_cases h : k = k2
    · subst h
      rw [mapSet_cons_self]
      simp only [List.map_cons, List.mem_cons]
      tauto
    · rw [mapSet_cons_ne _ _ _ _ _ h]
      simp only [List.map_cons, List.mem_cons, ih]
      tauto

theorem nodup_keys_mapSet {α : Type} (k : Nat) (v : α) :
    ∀ m : List (Nat × α), (m.map Prod.fst).Nodup →
    ((mapSet k v m).map Prod.fst).Nodup := by
  intro m
  induction m with
  | nil => simp [mapSet]
  | cons hd tl ih =>
    obtain ⟨k2, w⟩ := hd
    intro hnd
    simp only [List.map_cons, List.nodup_cons] at hnd
    by_cases h : k = k2
    · subst h
      rw [mapSet_cons_self]
      simp only [List.map_cons, List.nodup_cons]
      exact hnd
    · rw [mapSet_cons_ne _ _ _ _ _ h]
      simp only [List.map_cons, List.nodup_cons, mem_keys_mapSet]
      refine ⟨?_, ih hnd.2⟩
      rintro (rfl | hx)
      · exact h rfl
      · exact hnd.1 hx

/-! ## Piece assembly buffer (modelled from the spec) -/

/-- Modelled from the spec: the per-piece assembly buffer of `piece.rs` (not
among the analysed sources). `blocks` is the `BTreeMap` from intra-piece
byte offset to block payload, kept as a list sorted by offset; `fileRange`
abstracts the precomputed intersecting file spans. -/
structure Piece where
  expectedHash : List Byte
  len : Nat
  blocks : List (Nat × List Byte)
  fileRange : List Nat
deriving Repr, DecidableEq

/-- Ordered-map insertion at a byte offset, silently overwriting an entry
already present at that offset; iteration order stays sorted by offset. -/
def btreeInsert (off : Nat) (data : List Byte) :
    List (Nat × List Byte) → List (Nat × List Byte)
  | [] => [(off, data)]
  | (o, d) :: rest =>
    if off < o then (off, data) :: (o, d) :: rest
    else if off = o then (off, data) :: rest
    else (o, d) :: btreeInsert off data rest

/-- Modelled from the spec: `Piece::enqueue_block` inserts the payload at the
given offset, overwriting a duplicate submission. -/
def Piece.enqueueBlock (p : Piece) (off : Nat) (data : List Byte) : Piece :=
  { p with blocks := btreeInsert off data p.blocks }

/-- Modelled from the spec: `Piece::is_complete` is true iff the accumulated
block length equals the piece's declared length. -/
def Piece.isComplete (p : Piece) : Bool :=
  (p.blocks.map (fun b => b.2.length)).sum == p.len

/-- Modelled from the spec: the concatenation of the piece's blocks in offset
order. -/
def Piece.assembled (p : Piece) : List Byte :=
  (p.blocks.map Prod.snd).flatten

/-- Modelled from the spec: `Piece::matches_hash` computes the 20-byte digest
of the assembled piece and compares it byte-for-byte with the expected hash;
the digest function itself is kept abstract. -/
def Piece.matchesHash (p : Piece) (digest : List Byte → List Byte) : Bool :=
  digest p.assembled == p.expectedHash

/-! ## The storage-layout collaborator (modelled from the spec) -/

/-- Modelled from the spec: the external torrent-layout calculator
(`StorageInfo` in `storage_info.rs`, out of scope of the analysed sources,
interface only): a fallible piece-length lookup, a fallible
intersecting-file lookup, and the piece's offset in the torrent's
concatenated byte space. -/
structure StorageInfo where
  pieceLen : Nat → RustResult Unit Nat
  filesIntersectingPiece : Nat → RustResult Unit (List Nat)
  torrentPieceOffset : Nat → Nat

/-! ## Disk coordinator: write path (`torrent.rs`) -/

/-- `Torrent::start_new_piece`: slice the expected hash out of the
concatenated hash table at `piece_index * 20` (failing when
`hash_pos + 20` exceeds the table's length), look up the piece's length and
intersecting files (any failure becomes `InvalidPieceIndex`), and only then
insert the fresh piece into the write buffer. Returns the updated buffer in
place of the Rust in-place mutation. -/
def startNewPiece (info : StorageInfo) (pieceHashes : List Byte)
    (writeBuf : List (Nat × Piece)) (pieceIndex : Nat) :
    RustResult WriteError (List (Nat × Piece)) :=
  let hashPos := pieceIndex * 20
  if pieceHashes.length < hashPos + 20 then
    .err .invalidPieceIndex
  else
    match info.pieceLen pieceIndex with
    | .err _ => .err .invalidPieceIndex
    | .ok len =>
      match info.filesIntersectingPiece pieceIndex with
      | .err _ => .err .invalidPieceIndex
      | .ok fileRange =>
        .ok (mapSet pieceIndex
          ⟨(pieceHashes.drop hashPos).take 20, len, [], fileRange⟩ writeBuf)

/-- The observable effects of the blocking flush closure spawned by
`Torrent::write_block` for a completed piece. -/
structure FlushOutcome where
  notifications : List TorrentMsg
  wroteToDisk : Bool
  writeCountDelta : Nat
  writeFailureDelta : Nat
deriving Repr, DecidableEq

/-- The blocking closure of `Torrent::write_block`: hash the piece; only when
the hash matches, write the piece to disk (the outcome of that disk write is
an input of the model); and send exactly one `PieceCompletion`: `Err` with
the write error on a failed write, otherwise `Ok` with the validity flag. -/
def flushPiece (digest : List Byte → List Byte) (piece : Piece)
    (pieceIndex : Nat) (writeRes : RustResult WriteError Unit) :
    FlushOutcome :=
  let isPieceValid := piece.matchesHash digest
  if isPieceValid then
    match writeRes with
    | .err e => ⟨[.pieceCompletion (.err e)], true, 0, 1⟩
    | .ok _ =>
      ⟨[.pieceCompletion (.ok ⟨pieceIndex, true⟩)], true, piece.len, 0⟩
  else
    ⟨[.pieceCompletion (.ok ⟨pieceIndex, false⟩)], false, 0, 0⟩

/-- The observable outcome of one `Torrent::write_block` call: the call's own
return value, the write buffer afterwards, the notifications sent directly
from the call (channel sends are modelled as always delivered), the flush
dispatched to the blocking pool when the piece completed, and whether the
call hit the `expect` on the write-buffer lookup. -/
structure WriteOutcome where
  result : RustResult Unit Unit
  writeBuf : List (Nat × Piece)
  notifications : List TorrentMsg
  flushed : Option (Nat × FlushOutcome)
  panicked : Bool

/-- `Torrent::write_block`: create the piece's buffer when absent (a creation
failure is reported upstream and the call returns `Ok`), enqueue the block,
and when the piece is complete remove it from the buffer and dispatch the
blocking flush. -/
def writeBlock (digest : List Byte → List Byte) (info : StorageInfo)
    (pieceHashes : List Byte) (writeBuf : List (Nat × Piece))
    (blockInfo : BlockInfo) (data : List Byte)
    (writeRes : RustResult WriteError Unit) : WriteOutcome :=
  let pieceIndex := blockInfo.pieceIndex
  let bufStep : RustResult WriteError (List (Nat × Piece)) :=
    if (mapLookup pieceIndex writeBuf).isSome then .ok writeBuf
    else startNewPiece info pieceHashes writeBuf pieceIndex
  match bufStep with
  | .err e => ⟨.ok (), writeBuf, [.pieceCompletion (.err e)], none, false⟩
  | .ok buf =>
    match mapLookup pieceIndex buf with
    | none => ⟨.ok (), buf, [], none, true⟩
    | some piece0 =>
      let piece := piece0.enqueueBlock blockInfo.offset data
      if piece.isComplete then
        ⟨.ok (), mapRemove pieceIndex buf, [],
          some (pieceIndex, flushPiece digest piece pieceIndex writeRes),
          false⟩
      else
        ⟨.ok (), mapSet pieceIndex piece buf, [], none, false⟩

/-! ## Disk coordinator: read path (`torrent.rs`) -/

/-- The observable outcome of one `Torrent::read_block` call, including the
effects of the dispatched blocking read when one is spawned: the call's own
return value, notifications to the torrent channel, replies to the peer's
reply channel, the cache insertion, the statistics deltas, the number of
bytes the blocking read asks `piece::read` for, and whether the blocking
worker panicked on an out-of-bounds block index. -/
structure ReadOutcome where
  result : RustResult Unit Unit
  notifications : List TorrentMsg
  replies : List (BlockInfo × List Byte)
  cacheInsert : Option (Nat × List (List Byte))
  readCountDelta : Nat
  readFailureDelta : Nat
  dispatched : Bool
  diskReadLen : Option Nat
  panicked : Bool
deriving Repr, DecidableEq

/-- `Torrent::read_block`: on a cache hit, bounds-check the block index and
either reply with the cached block or report `InvalidBlockOffset`; on a
cache miss, resolve the file range (failure reported as
`InvalidPieceIndex`), propagate a piece-length failure as the call's own
error, and otherwise dispatch a blocking read of the whole piece (its disk
outcome is an input of the model) that indexes the requested block, caches
the full sequence, replies to the peer and updates the statistics — or, on
a failed read, notifies the torrent and counts the failure. -/
def readBlock (info : StorageInfo) (readCache : List (Nat × List (List Byte)))
    (blockInfo : BlockInfo)
    (diskRead : RustResult ReadError (List (List Byte))) : ReadOutcome :=
  let pieceIndex := blockInfo.pieceIndex
  let blockIndex := blockInfo.indexInPiece
  match mapLookup pieceIndex readCache with
  | some blocks =>
    if blocks.length ≤ blockIndex then
      ⟨.ok (), [.readError blockInfo .invalidBlockOffset], [], none,
        0, 0, false, none, false⟩
    else
      ⟨.ok (), [], [(blockInfo, blocks.getD blockIndex [])], none,
        0, 0, false, none, false⟩
  | none =>
    match info.filesIntersectingPiece pieceIndex with
    | .err _ =>
      ⟨.ok (), [.readError blockInfo .invalidPieceIndex], [], none,
        0, 0, false, none, false⟩
    | .ok _fileRange =>
      match info.pieceLen pieceIndex with
      | .err _ => ⟨.err (), [], [], none, 0, 0, false, none, false⟩
      | .ok pieceLen =>
        match diskRead with
        | .ok blocks =>
          match blocks[blockIndex]? with
          | none =>
            ⟨.ok (), [], [], none, 0, 0, true, some pieceLen, true⟩
          | some blk =>
            ⟨.ok (), [], [(blockInfo, blk)],
              some (pieceIndex, blocks), pieceLen, 0, true,
              some pieceLen, false⟩
        | .err e =>
          ⟨.ok (), [.readError blockInfo e], [], none,
            0, 1, true, some pieceLen, false⟩

/-! ## Helper lemmas -/

/-- Every failure mode of `start_new_piece` (hash table too short, failed
piece-length lookup, failed file-range lookup) yields `InvalidPieceIndex`. -/
theorem startNewPiece_err_of_bad (info : StorageInfo) (pieceHashes : List Byte)
    (writeBuf : List (Nat × Piece)) (pieceIndex : Nat)
    (hbad : pieceHashes.length < pieceIndex * 20 + 20 ∨
      info.pieceLen pieceIndex = .err () ∨
      info.filesIntersectingPiece pieceIndex = .err ()) :
    startNewPiece info pieceHashes writeBuf pieceIndex =
      .err .invalidPieceIndex := by
  unfold startNewPiece
  rcases hbad with h | h | h
  · simp [h]
  · by_cases hlt : pieceHashes.length < pieceIndex * 20 + 20 <;> simp [hlt, h]
  · by_cases hlt : pieceHashes.length < pieceIndex * 20 + 20
    · simp [hlt]
    · cases hpl : info.pieceLen pieceIndex <;> simp [hlt, hpl, h]

/-- A successful `start_new_piece` returns the input buffer with a fresh,
empty-blocked piece stored under the requested index. -/
theorem startNewPiece_ok_shape (info : StorageInfo) (pieceHashes : List Byte)
    (writeBuf : List (Nat × Piece)) (pieceIndex : Nat)
    (buf2 : List (Nat × Piece))
    (hok : startNewPiece info pieceHashes writeBuf pieceIndex = .ok buf2) :
    ∃ len fr, buf2 = mapSet pieceIndex
      ⟨(pieceHashes.drop (pieceIndex * 20)).take 20, len, [], fr⟩ writeBuf := by
  unfold startNewPiece at hok
  by_cases hlt : pieceHashes.length < pieceIndex * 20 + 20
  · simp [hlt] at hok
  · cases hpl : info.pieceLen pieceIndex with
    | err e => simp [hlt, hpl] at hok
    | ok len =>
      cases hfr : info.filesIntersectingPiece pieceIndex with
      | err e => simp [hlt, hpl, hfr] at hok
      | ok fr =>
        simp only [hlt, if_false, hpl, hfr] at hok
        cases hok
        exact ⟨len, fr, rfl⟩

/-- Sample digest function used by concrete witnesses: every input digests
to twenty zero bytes. -/
def sampleDigest : List Byte → List Byte := fun _ => List.replicate 20 0

/-- Sample piece whose expected hash the sample digest matches. -/
def samplePiece : Piece := ⟨List.replicate 20 0, 0, [], []⟩

/-! ## Claims -/

/-- C1: the dispatched flush worker reports `PieceCompletion::Ok`'s
`is_valid` as true exactly when the concatenation of the piece's blocks in
offset order digests to the expected hash, reports the piece's own index,
and reaches the file write only when the hash matched: a hash mismatch
never reaches the disk. -/
theorem c1_flush_validity (digest : List Byte → List Byte) (piece : Piece)
    (pieceIndex : Nat) (writeRes : RustResult WriteError Unit) :
    ((flushPiece digest piece pieceIndex writeRes).wroteToDisk = true ↔
      digest piece.assembled = piece.expectedHash) ∧
    (∀ i v, TorrentMsg.pieceCompletion (.ok ⟨i, v⟩) ∈
        (flushPiece digest piece pieceIndex writeRes).notifications →
      i = pieceIndex ∧ (v = true ↔ digest piece.assembled = piece.expectedHash)) := by
  unfold flushPiece
  cases h : piece.matchesHash digest with
  | false =>
    have hne : ¬ digest piece.assembled = piece.expectedHash := by
      simpa [Piece.matchesHash] using h
    cases writeRes <;> simp_all
  | true =>
    have heq : digest piece.assembled = piece.expectedHash := by
      simpa [Piece.matchesHash] using h
    cases writeRes <;> simp_all

/-- C1 witness: at the sample piece and digest, the flush over a successful
disk write reports the piece's index with validity flag true. -/
theorem c1_flush_validity_witness :
    5 = 5 ∧ (true = true ↔
      sampleDigest samplePiece.assembled = samplePiece.expectedHash) :=
  (c1_flush_validity sampleDigest samplePiece 5 (.ok ())).2 5 true (by decide)

/-- C6: every flush of a completed piece emits exactly one `PieceCompletion`
notification: `Ok` with `is_valid = true` on a matching hash and successful
write, `Ok` with `is_valid = false` on a hash mismatch, and `Err` with the
write error on a failed write. -/
theorem c6_exactly_one_notification (digest : List Byte → List Byte)
    (piece : Piece) (pieceIndex : Nat) (writeRes : RustResult WriteError Unit) :
    (flushPiece digest piece pieceIndex writeRes).notifications.length = 1 ∧
    (flushPiece digest piece pieceIndex writeRes).notifications =
      [.pieceCompletion
        (if piece.matchesHash digest then
          match writeRes with
          | .ok _ => .ok ⟨pieceIndex, true⟩
          | .err e => .err e
        else .ok ⟨pieceIndex, false⟩)] := by
  unfold flushPiece
  cases piece.matchesHash digest <;> cases writeRes <;> simp

/-- C3: a `write_block` whose piece index fails the hash-table bound or
either layout lookup sends `PieceCompletion::Err(InvalidPieceIndex)`
upstream, itself returns `Ok`, dispatches nothing, and leaves the write
buffer exactly as it was. -/
theorem c3_invalid_write_leaves_no_buffer (digest : List Byte → List Byte)
    (info : StorageInfo) (pieceHashes : List Byte)
    (writeBuf : List (Nat × Piece)) (blockInfo : BlockInfo)
    (data : List Byte) (writeRes : RustResult WriteError Unit)
    (habsent : mapLookup blockInfo.pieceIndex writeBuf = none)
    (hbad : pieceHashes.length < blockInfo.pieceIndex * 20 + 20 ∨
      info.pieceLen blockInfo.pieceIndex = .err () ∨
      info.filesIntersectingPiece blockInfo.pieceIndex = .err ()) :
    (writeBlock digest info pieceHashes writeBuf blockInfo data
        writeRes).result = .ok () ∧
    (writeBlock digest info pieceHashes writeBuf blockInfo data
        writeRes).notifications =
      [.pieceCompletion (.err .invalidPieceIndex)] ∧
    (writeBlock digest info pieceHashes writeBuf blockInfo data
        writeRes).writeBuf = writeBuf ∧
    (writeBlock digest info pieceHashes writeBuf blockInfo data
        writeRes).flushed = none := by
  have hstart := startNewPiece_err_of_bad info pieceHashes writeBuf
    blockInfo.pieceIndex hbad
  unfold writeBlock
  simp [habsent, hstart]

/-- C3 witness: with an empty hash table, writing to piece 0 of an empty
buffer reports `InvalidPieceIndex` and leaves the buffer empty. -/
theorem c3_invalid_write_leaves_no_buffer_witness :
    (writeBlock sampleDigest ⟨fun _ => .ok 16384, fun _ => .ok [0],
        fun i => i * 16384⟩ [] [] ⟨0, 0⟩ [1] (.ok ())).result = .ok () ∧
    (writeBlock sampleDigest ⟨fun _ => .ok 16384, fun _ => .ok [0],
        fun i => i * 16384⟩ [] [] ⟨0, 0⟩ [1] (.ok ())).notifications =
      [.pieceCompletion (.err .invalidPieceIndex)] ∧
    (writeBlock sampleDigest ⟨fun _ => .ok 16384, fun _ => .ok [0],
        fun i => i * 16384⟩ [] [] ⟨0, 0⟩ [1] (.ok ())).writeBuf = [] ∧
    (writeBlock sampleDigest ⟨fun _ => .ok 16384, fun _ => .ok [0],
        fun i => i * 16384⟩ [] [] ⟨0, 0⟩ [1] (.ok ())).flushed = none :=
  c3_invalid_write_leaves_no_buffer sampleDigest
    ⟨fun _ => .ok 16384, fun _ => .ok [0], fun i => i * 16384⟩ [] [] ⟨0, 0⟩
    [1] (.ok ()) rfl (Or.inl (by decide))

/-- Storage layout of a healthy one-piece torrent, used to exhibit the read
path's behaviour at concrete requests. -/
def c2Info : StorageInfo where
  pieceLen := fun _ => .ok 16384
  filesIntersectingPiece := fun _ => .ok [0]
  torrentPieceOffset := fun i => i * 16384

/-- C2: at the concrete request for block offset 16384 (intra-piece block
index 1) of a valid piece whose disk read succeeds with a single block, the
cache-miss worker indexes the block list out of bounds — the position
modelling the `blocks[block_index]` panic in the worker — and neither an
upstream notification nor a reply is produced, while the spec requires the
invalid block offset to be converted into an upstream notification. -/
theorem c2_miss_out_of_range_panics :
    (readBlock c2Info [] ⟨0, 16384⟩ (.ok [[1]])).panicked = true ∧
    (readBlock c2Info [] ⟨0, 16384⟩ (.ok [[1]])).notifications = [] ∧
    (readBlock c2Info [] ⟨0, 16384⟩ (.ok [[1]])).replies = [] ∧
    (readBlock c2Info [] ⟨0, 16384⟩ (.ok [[1]])).cacheInsert = none := by
  decide

/-- C10: whenever `start_new_piece` returns `Ok`, the write buffer holds an
entry for the piece index, so the `get_mut` that `write_block` performs next
always finds an entry and its `expect` can never panic: `write_block` never
reaches the panic branch. -/
theorem c10_expect_never_panics (info : StorageInfo) (pieceHashes : List Byte)
    (writeBuf : List (Nat × Piece)) (blockInfo : BlockInfo)
    (buf2 : List (Nat × Piece))
    (hok : startNewPiece info pieceHashes writeBuf blockInfo.pieceIndex =
      .ok buf2) :
    (mapLookup blockInfo.pieceIndex buf2).isSome = true ∧
    ∀ digest data writeRes,
      (writeBlock digest info pieceHashes writeBuf blockInfo data
        writeRes).panicked = false := by
  constructor
  · obtain ⟨len, fr, rfl⟩ := startNewPiece_ok_shape info pieceHashes writeBuf
      blockInfo.pieceIndex buf2 hok
    simp [mapLookup_mapSet_self]
  · intro digest data writeRes
    unfold writeBlock
    cases hw : mapLookup blockInfo.pieceIndex writeBuf with
    | some p =>
      simp only [hw, Option.isSome_some, if_true]
      cases hc : (p.enqueueBlock blockInfo.offset data).isComplete <;>
        simp [hw, hc]
    | none =>
      simp only [hw, Option.isSome_none, Bool.false_eq_true, if_false]
      cases hs : startNewPiece info pieceHashes writeBuf
          blockInfo.pieceIndex with
      | err e => simp
      | ok buf =>
        obtain ⟨len, fr, rfl⟩ := startNewPiece_ok_shape info pieceHashes
          writeBuf blockInfo.pieceIndex buf hs
        cases hc : ((⟨(pieceHashes.drop (blockInfo.pieceIndex * 20)).take 20,
              len, [], fr⟩ : Piece).enqueueBlock blockInfo.offset
              data).isComplete <;>
          simp [mapLookup_mapSet_self, hc]

/-- C10 witness: starting piece 0 against a twenty-byte hash table yields a
buffer holding piece 0, and a concrete `write_block` does not panic. -/
theorem c10_expect_never_panics_witness :
    (mapLookup 0
      [(0, (⟨List.replicate 20 0, 16384, [], [0]⟩ : Piece))]).isSome = true ∧
    (writeBlock sampleDigest c2Info (List.replicate 20 0) [] ⟨0, 0⟩ [1]
      (.ok ())).panicked = false :=
  ⟨(c10_expect_never_panics c2Info (List.replicate 20 0) [] ⟨0, 0⟩
      [(0, ⟨List.replicate 20 0, 16384, [], [0]⟩)] (by decide)).1,
   (c10_expect_never_panics c2Info (List.replicate 20 0) [] ⟨0, 0⟩
      [(0, ⟨List.replicate 20 0, 16384, [], [0]⟩)] (by decide)).2
      sampleDigest [1] (.ok ())⟩

/-- C7: on a read-cache hit, a block index inside the cached sequence is
answered directly on the reply channel with no blocking dispatch and no
disk access, while an out-of-range block index is reported upstream as
`InvalidBlockOffset` and the call still returns `Ok`. -/
theorem c7_cache_hit_serves_or_rejects (info : StorageInfo)
    (readCache : List (Nat × List (List Byte))) (blockInfo : BlockInfo)
    (diskRead : RustResult ReadError (List (List Byte)))
    (blocks : List (List Byte))
    (hhit : mapLookup blockInfo.pieceIndex readCache = some blocks) :
    (blockInfo.indexInPiece < blocks.length →
      (readBlock info readCache blockInfo diskRead).replies =
        [(blockInfo, blocks.getD blockInfo.indexInPiece [])] ∧
      (readBlock info readCache blockInfo diskRead).notifications = [] ∧
      (readBlock info readCache blockInfo diskRead).dispatched = false ∧
      (readBlock info readCache blockInfo diskRead).diskReadLen = none ∧
      (readBlock info readCache blockInfo diskRead).result = .ok ()) ∧
    (blocks.length ≤ blockInfo.indexInPiece →
      (readBlock info readCache blockInfo diskRead).notifications =
        [.readError blockInfo .invalidBlockOffset] ∧
      (readBlock info readCache blockInfo diskRead).replies = [] ∧
      (readBlock info readCache blockInfo diskRead).dispatched = false ∧
      (readBlock info readCache blockInfo diskRead).result = .ok ()) := by
  constructor
  · intro hlt
    unfold readBlock
    simp [hhit, Nat.not_le_of_lt hlt]
  · intro hge
    unfold readBlock
    simp [hhit, hge]

/-- C7 witness: with piece 0 cached as one block, reading block 0 replies
with the cached payload without dispatching. -/
theorem c7_cache_hit_serves_or_rejects_witness :
    (0 : Nat) < 1 ∧
    ((readBlock c2Info [(0, [[7]])] ⟨0, 0⟩ (.err (.io 0))).replies =
        [(⟨0, 0⟩, [7])] ∧
      (readBlock c2Info [(0, [[7]])] ⟨0, 0⟩ (.err (.io 0))).notifications =
        [] ∧
      (readBlock c2Info [(0, [[7]])] ⟨0, 0⟩ (.err (.io 0))).dispatched =
        false ∧
      (readBlock c2Info [(0, [[7]])] ⟨0, 0⟩ (.err (.io 0))).diskReadLen =
        none ∧
      (readBlock c2Info [(0, [[7]])] ⟨0, 0⟩ (.err (.io 0))).result =
        .ok ()) :=
  ⟨by decide,
   (c7_cache_hit_serves_or_rejects c2Info [(0, [[7]])] ⟨0, 0⟩ (.err (.io 0))
      [[7]] (by decide)).1 (by decide)⟩

/-- C8: on a cache miss with a valid piece index whose dispatched disk read
succeeds, the blocking read is issued for the whole piece length, the full
block sequence is inserted into the read cache under the piece index, the
requested block is forwarded to the reply channel, and the read-byte
counter grows by the piece length. -/
theorem c8_miss_reads_whole_piece (info : StorageInfo)
    (readCache : List (Nat × List (List Byte))) (blockInfo : BlockInfo)
    (blocks : List (List Byte)) (blk : List Byte) (pieceLen : Nat)
    (fr : List Nat)
    (hmiss : mapLookup blockInfo.pieceIndex readCache = none)
    (hfr : info.filesIntersectingPiece blockInfo.pieceIndex = .ok fr)
    (hlen : info.pieceLen blockInfo.pieceIndex = .ok pieceLen)
    (hblk : blocks[blockInfo.indexInPiece]? = some blk) :
    (readBlock info readCache blockInfo (.ok blocks)).cacheInsert =
      some (blockInfo.pieceIndex, blocks) ∧
    (readBlock info readCache blockInfo (.ok blocks)).replies =
      [(blockInfo, blk)] ∧
    (readBlock info readCache blockInfo (.ok blocks)).readCountDelta =
      pieceLen ∧
    (readBlock info readCache blockInfo (.ok blocks)).diskReadLen =
      some pieceLen ∧
    (readBlock info readCache blockInfo (.ok blocks)).dispatched = true ∧
    (readBlock info readCache blockInfo (.ok blocks)).result = .ok () := by
  unfold readBlock
  simp [hmiss, hfr, hlen, hblk]

/-- C8 witness: a miss on piece 0 whose read returns one block caches the
sequence, replies with block 0 and counts 16384 read bytes. -/
theorem c8_miss_reads_whole_piece_witness :
    (readBlock c2Info [] ⟨0, 0⟩ (.ok [[7]])).cacheInsert =
      some (0, [[7]]) ∧
    (readBlock c2Info [] ⟨0, 0⟩ (.ok [[7]])).replies = [(⟨0, 0⟩, [7])] ∧
    (readBlock c2Info [] ⟨0, 0⟩ (.ok [[7]])).readCountDelta = 16384 ∧
    (readBlock c2Info [] ⟨0, 0⟩ (.ok [[7]])).diskReadLen = some 16384 ∧
    (readBlock c2Info [] ⟨0, 0⟩ (.ok [[7]])).dispatched = true ∧
    (readBlock c2Info [] ⟨0, 0⟩ (.ok [[7]])).result = .ok () :=
  c8_miss_reads_whole_piece c2Info [] ⟨0, 0⟩ [[7]] [7] 16384 [0]
    (by decide) (by decide) (by decide) (by decide)

/-- C9: when the dispatched disk read of a cache miss fails, a typed
`ReadError` carrying the block info and the error is sent upstream, the
read-failure counter grows by one, nothing is inserted into the read cache,
and no reply reaches the peer's channel. -/
theorem c9_read_failure_notified (info : StorageInfo)
    (readCache : List (Nat × List (List Byte))) (blockInfo : BlockInfo)
    (e : ReadError) (pieceLen : Nat) (fr : List Nat)
    (hmiss : mapLookup blockInfo.pieceIndex readCache = none)
    (hfr : info.filesIntersectingPiece blockInfo.pieceIndex = .ok fr)
    (hlen : info.pieceLen blockInfo.pieceIndex = .ok pieceLen) :
    (readBlock info readCache blockInfo (.err e)).notifications =
      [.readError blockInfo e] ∧
    (readBlock info readCache blockInfo (.err e)).readFailureDelta = 1 ∧
    (readBlock info readCache blockInfo (.err e)).cacheInsert = none ∧
    (readBlock info readCache blockInfo (.err e)).replies = [] ∧
    (readBlock info readCache blockInfo (.err e)).result = .ok () := by
  unfold readBlock
  simp [hmiss, hfr, hlen]

/-- C9 witness: reading block 0 of piece 0 before anything was written fails
with an I/O error that is reported upstream, never silently dropped. -/
theorem c9_read_failure_notified_witness :
    (readBlock c2Info [] ⟨0, 0⟩ (.err (.io 2))).notifications =
      [.readError ⟨0, 0⟩ (.io 2)] ∧
    (readBlock c2Info [] ⟨0, 0⟩ (.err (.io 2))).readFailureDelta = 1 ∧
    (readBlock c2Info [] ⟨0, 0⟩ (.err (.io 2))).cacheInsert = none ∧
    (readBlock c2Info [] ⟨0, 0⟩ (.err (.io 2))).replies = [] ∧
    (readBlock c2Info [] ⟨0, 0⟩ (.err (.io 2))).result = .ok () :=
  c9_read_failure_notified c2Info [] ⟨0, 0⟩ (.io 2) 16384 [0]
    (by decide) (by decide) (by decide)

/-- C5: a single `write_block` step keeps at most one flush in flight per
piece: whenever a flush is dispatched, the piece's entry has already been
removed from the write buffer, so no further block can be enqueued against
it; entries of other pieces are untouched; and when no flush and no error
notification happened, the piece's entry is present and still incomplete —
a buffer entry exists exactly between the first received block and the
moment of completion. The hypothesis is the `HashMap` key-uniqueness
invariant of the write buffer. -/
theorem c5_buffer_entry_lifecycle (digest : List Byte → List Byte)
    (info : StorageInfo) (pieceHashes : List Byte)
    (writeBuf : List (Nat × Piece)) (blockInfo : BlockInfo)
    (data : List Byte) (writeRes : RustResult WriteError Unit)
    (hnd : (writeBuf.map Prod.fst).Nodup) :
    ((writeBlock digest info pieceHashes writeBuf blockInfo data
        writeRes).flushed.isSome = true →
      mapLookup blockInfo.pieceIndex
        (writeBlock digest info pieceHashes writeBuf blockInfo data
          writeRes).writeBuf = none) ∧
    (∀ j, j ≠ blockInfo.pieceIndex →
      mapLookup j (writeBlock digest info pieceHashes writeBuf blockInfo
        data writeRes).writeBuf = mapLookup j writeBuf) ∧
    ((writeBlock digest info pieceHashes writeBuf blockInfo data
        writeRes).flushed = none ∧
      (writeBlock digest info pieceHashes writeBuf blockInfo data
        writeRes).notifications = [] →
      ∃ p, mapLookup blockInfo.pieceIndex
          (writeBlock digest info pieceHashes writeBuf blockInfo data
            writeRes).writeBuf = some p ∧ p.isComplete = false) := by
  refine ⟨?_, ?_, ?_⟩
  · intro hf
    cases hw : mapLookup blockInfo.pieceIndex writeBuf with
    | some p =>
      cases hc : (p.enqueueBlock blockInfo.offset data).isComplete with
      | true =>
        simp [writeBlock, hw, hc]
        exact mapLookup_mapRemove_self _ _ hnd
      | false => simp [writeBlock, hw, hc] at hf
    | none =>
      cases hs : startNewPiece info pieceHashes writeBuf
          blockInfo.pieceIndex with
      | err e => simp [writeBlock, hw, hs] at hf
      | ok buf =>
        obtain ⟨len, fr, rfl⟩ := startNewPiece_ok_shape info pieceHashes
          writeBuf blockInfo.pieceIndex buf hs
        cases hc : ((⟨(pieceHashes.drop (blockInfo.pieceIndex * 20)).take 20,
            len, [], fr⟩ : Piece).enqueueBlock blockInfo.offset
            data).isComplete with
        | true =>
          simp [writeBlock, hw, hs, mapLookup_mapSet_self, hc]
          exact mapLookup_mapRemove_self _ _ (nodup_keys_mapSet _ _ _ hnd)
        | false =>
          simp [writeBlock, hw, hs, mapLookup_mapSet_self, hc] at hf
  · intro j hj
    cases hw : mapLookup blockInfo.pieceIndex writeBuf with
    | some p =>
      cases hc : (p.enqueueBlock blockInfo.offset data).isComplete with
      | true =>
        simp [writeBlock, hw, hc]
        exact mapLookup_mapRemove_ne _ _ hj _
      | false =>
        simp [writeBlock, hw, hc]
        exact mapLookup_mapSet_ne _ _ _ hj _
    | none =>
      cases hs : startNewPiece info pieceHashes writeBuf
          blockInfo.pieceIndex with
      | err e => simp [writeBlock, hw, hs]
      | ok buf =>
        obtain ⟨len, fr, rfl⟩ := startNewPiece_ok_shape info pieceHashes
          writeBuf blockInfo.pieceIndex buf hs
        cases hc : ((⟨(pieceHashes.drop (blockInfo.pieceIndex * 20)).take 20,
            len, [], fr⟩ : Piece).enqueueBlock blockInfo.offset
            data).isComplete with
        | true =>
          simp [writeBlock, hw, hs, mapLookup_mapSet_self, hc]
          rw [mapLookup_mapRemove_ne _ _ hj]
          exact mapLookup_mapSet_ne _ _ _ hj _
        | false =>
          simp [writeBlock, hw, hs, mapLookup_mapSet_self, hc]
          rw [mapLookup_mapSet_ne _ _ _ hj]
          exact mapLookup_mapSet_ne _ _ _ hj _
  · intro hq
    cases hw : mapLookup blockInfo.pieceIndex writeBuf with
    | some p =>
      cases hc : (p.enqueueBlock blockInfo.offset data).isComplete with
      | true => simp [writeBlock, hw, hc] at hq
      | false =>
        refine ⟨p.enqueueBlock blockInfo.offset data, ?_, hc⟩
        simp [writeBlock, hw, hc, mapLookup_mapSet_self]
    | none =>
      cases hs : startNewPiece info pieceHashes writeBuf
          blockInfo.pieceIndex with
      | err e => simp [writeBlock, hw, hs] at hq
      | ok buf =>
        obtain ⟨len, fr, rfl⟩ := startNewPiece_ok_shape info pieceHashes
          writeBuf blockInfo.pieceIndex buf hs
        cases hc : ((⟨(pieceHashes.drop (blockInfo.pieceIndex * 20)).take 20,
            len, [], fr⟩ : Piece).enqueueBlock blockInfo.offset
            data).isComplete with
        | true =>
          simp [writeBlock, hw, hs, mapLookup_mapSet_self, hc] at hq
        | false =>
          refine ⟨(⟨(pieceHashes.drop (blockInfo.pieceIndex * 20)).take 20,
            len, [], fr⟩ : Piece).enqueueBlock blockInfo.offset data,
            ?_, hc⟩
          simp [writeBlock, hw, hs, mapLookup_mapSet_self, hc]

/-- C5 witness: writing one short block of piece 0 into an empty buffer
leaves an incomplete entry for piece 0 and does not disturb key 5. -/
theorem c5_buffer_entry_lifecycle_witness :
    mapLookup 5 (writeBlock sampleDigest c2Info (List.replicate 20 0) []
      ⟨0, 0⟩ [1] (.ok ())).writeBuf =
      mapLookup 5 ([] : List (Nat × Piece)) ∧
    ∃ p, mapLookup 0 (writeBlock sampleDigest c2Info (List.replicate 20 0)
        [] ⟨0, 0⟩ [1] (.ok ())).writeBuf = some p ∧
      p.isComplete = false :=
  ⟨(c5_buffer_entry_lifecycle sampleDigest c2Info (List.replicate 20 0) []
      ⟨0, 0⟩ [1] (.ok ()) (by simp)).2.1 5 (by decide),
   (c5_buffer_entry_lifecycle sampleDigest c2Info (List.replicate 20 0) []
      ⟨0, 0⟩ [1] (.ok ()) (by simp)).2.2 (by decide)⟩

/-! ## Order-independence of piece assembly (C4) -/

/-- Offsets present in a block map. -/
def btreeKeys (m : List (Nat × List Byte)) : List Nat := m.map Prod.fst

/-- Total number of payload bytes held in a block map. -/
def sumLens (m : List (Nat × List Byte)) : Nat :=
  (m.map (fun e => e.2.length)).sum

/-- Submitting a list of blocks to a piece, one `enqueue_block` each. -/
def foldEnqueue (p : Piece) (subs : List (Nat × List Byte)) : Piece :=
  subs.foldl (fun q s => q.enqueueBlock s.1 s.2) p

theorem btreeInsert_cons_lt (off o : Nat) (data d : List Byte)
    (tl : List (Nat × List Byte)) (h : off < o) :
    btreeInsert off data ((o, d) :: tl) = (off, data) :: (o, d) :: tl := by
  simp [btreeInsert, h]

theorem btreeInsert_cons_eq (o : Nat) (data d : List Byte)
    (tl : List (Nat × List Byte)) :
    btreeInsert o data ((o, d) :: tl) = (o, data) :: tl := by
  simp [btreeInsert]

theorem btreeInsert_cons_gt (off o : Nat) (data d : List Byte)
    (tl : List (Nat × List Byte)) (h : o < off) :
    btreeInsert off data ((o, d) :: tl) =
      (o, d) :: btreeInsert off data tl := by
  have h1 : ¬ off < o := by omega
  have h2 : ¬ off = o := by omega
  simp [btreeInsert, h1, h2]

theorem mem_keys_btreeInsert (off x : Nat) (data : List Byte) :
    ∀ m, x ∈ btreeKeys (btreeInsert off data m) ↔
      x = off ∨ x ∈ btreeKeys m := by
  intro m
  induction m with
  | nil => simp [btreeInsert, btreeKeys]
  | cons hd tl ih =>
    obtain ⟨o, d⟩ := hd
    rcases Nat.lt_trichotomy off o with h | h | h
    · rw [btreeInsert_cons_lt _ _ _ _ _ h]
      simp only [btreeKeys, List.map_cons, List.mem_cons]
      try tauto
    · subst h
      rw [btreeInsert_cons_eq]
      simp only [btreeKeys, List.map_cons, List.mem_cons]
      try tauto
    · rw [btreeInsert_cons_gt _ _ _ _ _ h]
      simp only [btreeKeys, List.map_cons, List.mem_cons] at ih ⊢
      rw [ih]
      try tauto

theorem sumLens_btreeInsert (off : Nat) (data : List Byte) :
    ∀ m, off ∉ btreeKeys m →
    sumLens (btreeInsert off data m) = sumLens m + data.length := by
  intro m
  induction m with
  | nil => simp [btreeInsert, sumLens]
  | cons hd tl ih =>
    obtain ⟨o, d⟩ := hd
    intro hmem
    simp only [btreeKeys, List.map_cons, List.mem_cons] at hmem
    push_neg at hmem
    rcases Nat.lt_trichotomy off o with h | h | h
    · rw [btreeInsert_cons_lt _ _ _ _ _ h]
      simp only [sumLens, List.map_cons, List.sum_cons]
      omega
    · exact absurd h hmem.1
    · rw [btreeInsert_cons_gt _ _ _ _ _ h]
      simp only [sumLens, List.map_cons, List.sum_cons] at ih ⊢
      rw [ih hmem.2]
      omega

theorem btreeInsert_comm (a b : Nat) (da db : List Byte) (hab : a ≠ b) :
    ∀ m, btreeInsert a da (btreeInsert b db m) =
      btreeInsert b db (btreeInsert a da m) := by
  intro m
  induction m with
  | nil =>
    simp only [btreeInsert]
    rcases Nat.lt_trichotomy a b with h | h | h
    · have h1 : ¬ b < a := by omega
      have h2 : ¬ b = a := by omega
      simp [btreeInsert, h, h1, h2]
    · exact absurd h hab
    · have h1 : ¬ a < b := by omega
      have h2 : ¬ a = b := by omega
      simp [btreeInsert, h, h1, h2]
  | cons hd tl ih =>
    obtain ⟨o, d⟩ := hd
    rcases Nat.lt_trichotomy a o with ha | ha | ha <;>
      rcases Nat.lt_trichotomy b o with hb | hb | hb
    · -- a < o, b < o
      rcases Nat.lt_trichotomy a b with h | h | h
      · simp [btreeInsert_cons_lt, btreeInsert_cons_gt, ha, hb, h]
      · exact absurd h hab
      · simp [btreeInsert_cons_lt, btreeInsert_cons_gt, ha, hb, h]
    · -- a < o, b = o
      subst hb
      simp [btreeInsert_cons_lt, btreeInsert_cons_eq,
        btreeInsert_cons_gt, ha]
    · -- a < o, o < b
      have hab2 : a < b := by omega
      simp [btreeInsert_cons_lt, btreeInsert_cons_gt, ha, hb, hab2]
    · -- a = o, b < o
      subst ha
      simp [btreeInsert_cons_lt, btreeInsert_cons_eq,
        btreeInsert_cons_gt, hb]
    · -- a = o, b = o: impossible
      exact absurd (ha.trans hb.symm) hab
    · -- a = o, o < b
      subst ha
      simp [btreeInsert_cons_eq, btreeInsert_cons_gt, hb]
    · -- o < a, b < o
      have hba : b < a := by omega
      simp [btreeInsert_cons_lt, btreeInsert_cons_gt, ha, hb, hba]
    · -- o < a, b = o
      subst hb
      simp [btreeInsert_cons_eq, btreeInsert_cons_gt, ha]
    · -- o < a, o < b
      simp [btreeInsert_cons_gt, ha, hb, ih]

theorem foldInsert_perm {l₁ l₂ : List (Nat × List Byte)} (hp : l₁.Perm l₂) :
    (l₁.map Prod.fst).Nodup →
    ∀ m, l₁.foldl (fun acc s => btreeInsert s.1 s.2 acc) m =
      l₂.foldl (fun acc s => btreeInsert s.1 s.2 acc) m := by
  induction hp with
  | nil => intro _ m; rfl
  | cons x hp ih =>
    intro hnd m
    rw [List.map_cons] at hnd
    simp only [List.foldl_cons]
    exact ih (List.nodup_cons.mp hnd).2 _
  | swap x y l =>
    intro hnd m
    rw [List.map_cons, List.map_cons] at hnd
    simp only [List.foldl_cons]
    have hne : y.1 ≠ x.1 := fun h =>
      (List.nodup_cons.mp hnd).1 (h ▸ List.mem_cons_self _ _)
    rw [btreeInsert_comm x.1 y.1 x.2 y.2 hne.symm m]
  | trans hp1 hp2 ih1 ih2 =>
    intro hnd m
    rw [ih1 hnd m, ih2 ((hp1.map Prod.fst).nodup hnd) m]

theorem foldEnqueue_eq : ∀ (subs : List (Nat × List Byte)) (p : Piece),
    foldEnqueue p subs = ⟨p.expectedHash, p.len,
      subs.foldl (fun m s => btreeInsert s.1 s.2 m) p.blocks,
      p.fileRange⟩ := by
  intro subs
  induction subs with
  | nil => intro p; rfl
  | cons s rest ih =>
    intro p
    have h1 : foldEnqueue p (s :: rest) =
        foldEnqueue (p.enqueueBlock s.1 s.2) rest := rfl
    rw [h1, ih]
    rfl

theorem sumLens_foldInsert :
    ∀ (subs : List (Nat × List Byte)) (m : List (Nat × List Byte)),
    (subs.map Prod.fst).Nodup →
    (∀ k ∈ subs.map Prod.fst, k ∉ btreeKeys m) →
    sumLens (subs.foldl (fun acc s => btreeInsert s.1 s.2 acc) m) =
      sumLens m + (subs.map (fun s => s.2.length)).sum := by
  intro subs
  induction subs with
  | nil => intro m _ _; simp
  | cons s rest ih =>
    intro m hnd hdis
    rw [List.map_cons] at hnd
    simp only [List.foldl_cons]
    have hs : s.1 ∉ btreeKeys m := hdis s.1 (by simp)
    have hh : s.1 ∉ rest.map Prod.fst := (List.nodup_cons.mp hnd).1
    have hnd2 := (List.nodup_cons.mp hnd).2
    have hdis2 : ∀ k ∈ rest.map Prod.fst,
        k ∉ btreeKeys (btreeInsert s.1 s.2 m) := by
      intro k hk
      rw [mem_keys_btreeInsert]
      rintro (rfl | hkm)
      · exact hh hk
      · exact hdis k (by simp [hk]) hkm
    rw [ih _ hnd2 hdis2, sumLens_btreeInsert _ _ _ hs]
    simp only [List.map_cons, List.sum_cons]
    omega

/-- C4: submitting a set of distinct-offset blocks to a fresh piece buffer
in any order yields the same buffer, and the buffer is complete exactly
when the total number of submitted bytes equals the piece's declared
length. -/
theorem c4_complete_iff_total_bytes (expectedHash : List Byte) (len : Nat)
    (fr : List Nat) (subs subs2 : List (Nat × List Byte))
    (hnd : (subs.map Prod.fst).Nodup) (hperm : subs.Perm subs2) :
    foldEnqueue ⟨expectedHash, len, [], fr⟩ subs2 =
      foldEnqueue ⟨expectedHash, len, [], fr⟩ subs ∧
    ((foldEnqueue ⟨expectedHash, len, [], fr⟩ subs2).isComplete = true ↔
      (subs.map (fun s => s.2.length)).sum = len) := by
  have hfold := foldInsert_perm hperm hnd
  constructor
  · rw [foldEnqueue_eq subs2, foldEnqueue_eq subs, hfold]
  · rw [foldEnqueue_eq subs2, ← hfold]
    have hsum := sumLens_foldInsert subs [] hnd (by simp [btreeKeys])
    simp only [sumLens, List.map_nil, List.sum_nil, Nat.zero_add] at hsum
    simp only [Piece.isComplete, hsum, beq_iff_eq]

/-- C4 witness: the two blocks of a two-byte piece submitted in either order
give the same buffer, complete exactly because one plus one bytes equal the
declared length two. -/
theorem c4_complete_iff_total_bytes_witness :
    foldEnqueue ⟨[], 2, [], []⟩ [(16384, [2]), (0, [1])] =
      foldEnqueue ⟨[], 2, [], []⟩ [(0, [1]), (16384, [2])] ∧
    ((foldEnqueue ⟨[], 2, [], []⟩ [(16384, [2]), (0, [1])]).isComplete =
        true ↔
      ([(0, [1]), (16384, [2])].map
        (fun s : Nat × List Byte => s.2.length)).sum = 2) :=
  c4_complete_iff_total_bytes [] 2 [] [(0, [1]), (16384, [2])]
    [(16384, [2]), (0, [1])] (by decide) (by decide)

end Cratetorrent
